import Mathlib

/-!
Verification development for the file-comparison and rule-based refactoring
engine of the github-mcp-code-reviewer repository (services/codeAnalyzer.ts
and services/refactoringEngine.ts).

Conventions of the shallow embedding:
* File contents are represented by their list of lines (`List String`); the
  TypeScript code splits contents on "\n" at the start of almost every
  routine and joins on "\n" at the end, so the line list is a faithful
  representation (split/join round-trip).
* JavaScript floating-point arithmetic on the small scores used here
  (tenths, halves) is modelled exactly with rationals; on these magnitudes
  the float comparisons in the source coincide with the exact rational ones.
* JavaScript string lexicographic comparison (used by the default
  `Array.prototype.sort`) is modelled by the lexicographic order on Lean
  strings; the two agree on the ASCII inputs this code handles.
-/

/-! ### Basic string helpers mirroring the JavaScript string API -/

/-- JS `String.prototype.includes` on character lists: `sub` occurs
contiguously in the list. An empty needle always matches. -/
def listContainsSub : List Char → List Char → Bool
  | _, [] => true
  | [], _ :: _ => false
  | c :: rest, sub => if sub.isPrefixOf (c :: rest) then true else listContainsSub rest sub

/-- JS `s.includes(sub)` for strings. -/
def strContains (s sub : String) : Bool :=
  listContainsSub s.toList sub.toList

/-- JS `s.trim()`: strip whitespace from both ends. -/
def jsTrim (s : String) : String :=
  String.mk (((s.toList.dropWhile Char.isWhitespace).reverse.dropWhile Char.isWhitespace).reverse)

/-- JS `s.startsWith(pre)`. -/
def jsStartsWith (s pre : String) : Bool :=
  pre.toList.isPrefixOf s.toList

/-- Accumulator pass of JS `s.split(",")`. -/
def splitCommaAux (cur : List Char) : List Char → List (List Char)
  | [] => [cur.reverse]
  | c :: rest =>
    if c = ',' then cur.reverse :: splitCommaAux [] rest
    else splitCommaAux (c :: cur) rest

/-- JS `s.split(",")` on a character list. -/
def splitOnComma (cs : List Char) : List String :=
  (splitCommaAux [] cs).map String.mk

/-- JS `array.join("\n")`. -/
def joinWithNL : List String → String
  | [] => ""
  | [l] => l
  | l :: rest => l ++ "\n" ++ joinWithNL rest

/-- Opening curly brace character (written via its code point). -/
def lbrace : Char := Char.ofNat 123

/-- Closing curly brace character (written via its code point). -/
def rbrace : Char := Char.ofNat 125

/-- Word character of the JS regex class backslash-w: letters, digits, underscore. -/
def isWordChar (c : Char) : Bool := c.isAlphanum || c = '_'

/-! ### Levenshtein distance and method similarity
(codeAnalyzer.ts, `levenshteinDistance` lines 478-504 and
`calculateMethodSimilarity` lines 465-476) -/

/-- Unit-cost Levenshtein recurrence. The matrix dynamic program in the
source (`levenshteinDistance`) memoizes exactly this recurrence; the `fuel`
argument only makes the recursion structurally terminating, and
`fuel = |s1| + |s2|` always suffices since every recursive call drops at
least one character in total. -/
def levRec : Nat → List Char → List Char → Nat
  | _, [], ys => ys.length
  | _, _ :: xs, [] => xs.length + 1
  | 0, _ :: _, _ :: _ => 0
  | fuel + 1, x :: xs, y :: ys =>
      if x = y then levRec fuel xs ys
      else 1 + min (levRec fuel xs ys)
                   (min (levRec fuel (x :: xs) ys) (levRec fuel xs (y :: ys)))

/-- The source's `levenshteinDistance(str1, str2)`: the edit distance between
the two strings' character sequences. -/
def levenshteinDistance (str1 str2 : String) : Nat :=
  levRec (str1.length + str2.length) str1.toList str2.toList

/-- The source's `calculateMethodSimilarity(method1, method2)`:
`1.0` on equal strings, otherwise `(|longer| - editDistance) / |longer|`,
where `longer`/`shorter` are picked by length (ties give `method2` the role
of `longer`, exactly as the ternary in the source does). -/
def calculateMethodSimilarity (method1 method2 : String) : ℚ :=
  if method1 = method2 then 1
  else
    let longer := if method1.length > method2.length then method1 else method2
    let shorter := if method1.length > method2.length then method2 else method1
    if longer.length = 0 then 1
    else ((longer.length : ℚ) - (levenshteinDistance longer shorter : ℚ)) / (longer.length : ℚ)

/-! ### Significance classification (codeAnalyzer.ts, `assessSignificance`) -/

/-- The source's `assessSignificance(line)`: a priority cascade over lexical
cues of the trimmed line. -/
def assessSignificance (line : String) : String :=
  let trimmedLine := jsTrim line
  if strContains trimmedLine "export" || strContains trimmedLine "import" ||
     strContains trimmedLine "class" || strContains trimmedLine "function" ||
     strContains trimmedLine "interface" || strContains trimmedLine "type" then "high"
  else if strContains trimmedLine "const" || strContains trimmedLine "let" ||
     strContains trimmedLine "var" || strContains trimmedLine "return" ||
     strContains trimmedLine "throw" then "medium"
  else if jsStartsWith trimmedLine "//" || jsStartsWith trimmedLine "/*" || trimmedLine = "" then "low"
  else "medium"

/-! ### Line diff (the `diffLines` dependency of `compareFiles`)

The diff itself comes from the external `diff` npm package and is not part
of this repository, so it is modelled from the spec (section 4.1): an
LCS-based line diff partitioning the two texts into Added / Removed /
Unchanged blocks. -/

/-- Tag of a diff block. -/
inductive DTag
  | added
  | removed
  | unchanged
deriving DecidableEq

/-- One block of the diff: a tag together with the run of lines it covers.
In the npm package each part carries the lines joined with trailing
newlines; here the block keeps the line list itself. -/
structure DiffPart where
  tag : DTag
  lines : List String
deriving DecidableEq

/-- Modelled from the spec: length of a longest common subsequence, fueled
to keep the recursion structural; `fuel = |xs| + |ys|` always suffices. -/
def lcsLen : Nat → List String → List String → Nat
  | _, [], _ => 0
  | _, _ :: _, [] => 0
  | 0, _ :: _, _ :: _ => 0
  | fuel + 1, x :: xs, y :: ys =>
      if x = y then 1 + lcsLen fuel xs ys
      else max (lcsLen fuel (x :: xs) ys) (lcsLen fuel xs (y :: ys))

/-- Modelled from the spec: per-line tagged diff of baseline `xs` against
local `ys`, choosing at each mismatch the branch with the longer common
subsequence (a classic LCS diff). The zero-fuel fallback (never reached
when `fuel = |xs| + |ys|`) removes and re-adds everything, which still
partitions the inputs correctly. -/
def diffTagged : Nat → List String → List String → List (DTag × String)
  | _, [], ys => ys.map (fun y => (DTag.added, y))
  | _, x :: xs, [] => (x :: xs).map (fun x' => (DTag.removed, x'))
  | 0, x :: xs, y :: ys =>
      (x :: xs).map (fun x' => (DTag.removed, x')) ++ (y :: ys).map (fun y' => (DTag.added, y'))
  | fuel + 1, x :: xs, y :: ys =>
      if x = y then (DTag.unchanged, x) :: diffTagged fuel xs ys
      else if lcsLen (xs.length + ys.length + 1) xs (y :: ys) ≥
              lcsLen (xs.length + ys.length + 1) (x :: xs) ys then
        (DTag.removed, x) :: diffTagged fuel xs (y :: ys)
      else
        (DTag.added, y) :: diffTagged fuel (x :: xs) ys

/-- Merge consecutive equally-tagged lines into blocks, as the parts of the
npm diff are maximal runs. -/
def groupParts : List (DTag × String) → List DiffPart
  | [] => []
  | (t, l) :: rest =>
    match groupParts rest with
    | [] => [⟨t, [l]⟩]
    | p :: ps => if p.tag = t then ⟨t, l :: p.lines⟩ :: ps else ⟨t, [l]⟩ :: p :: ps

/-- Modelled from the spec: the `diffLines(baseline, localText)` call of
`compareFiles`. -/
def diffLines (baseline localText : List String) : List DiffPart :=
  groupParts (diffTagged (baseline.length + localText.length) baseline localText)

/-- Lines of the baseline text as recoverable from the diff: concatenation
of the Unchanged and Removed blocks. -/
def reconstructOld (parts : List DiffPart) : List String :=
  parts.foldr (fun p acc => (if p.tag = DTag.added then [] else p.lines) ++ acc) []

/-- Lines of the local text as recoverable from the diff: concatenation of
the Unchanged and Added blocks. -/
def reconstructNew (parts : List DiffPart) : List String :=
  parts.foldr (fun p acc => (if p.tag = DTag.removed then [] else p.lines) ++ acc) []

/-- Baseline lines of a tagged diff (helper for the block-level statement). -/
def oldOfTagged (tl : List (DTag × String)) : List String :=
  tl.foldr (fun t acc => if t.1 = DTag.added then acc else t.2 :: acc) []

/-- Local lines of a tagged diff (helper for the block-level statement). -/
def newOfTagged (tl : List (DTag × String)) : List String :=
  tl.foldr (fun t acc => if t.1 = DTag.removed then acc else t.2 :: acc) []

/-! ### Change collection in `compareFiles` (codeAnalyzer.ts lines 260-300) -/

/-- One ChangeRecord (the source's `ChangeInfo`). -/
structure ChangeInfo where
  type : String
  lineNumber : Nat
  content : String
  significance : String
deriving DecidableEq

/-- The body of the `added` / `removed` branches of the loop in
`compareFiles`: walk the block's lines, pushing a record and bumping the
counter only for lines with non-empty trim. In the source the block's value
is re-split on newlines, which also yields one final empty string for the
trailing newline; that extra blank neither yields a record nor increments,
so walking exactly the block's lines is equivalent. -/
def addBlock (ctype : String) (acc : List ChangeInfo × Nat) (blockLines : List String) :
    List ChangeInfo × Nat :=
  blockLines.foldl (fun a line =>
    if jsTrim line != "" then
      (a.1 ++ [⟨ctype, a.2, line, assessSignificance line⟩], a.2 + 1)
    else a) acc

/-- One block of the change-collection loop of `compareFiles`: Added and
Removed blocks contribute records (walking their lines), while Unchanged
blocks only advance the counter, by their full number of physical lines
(`part.value.split("\n").length - 1` in the source). -/
def collectStep (acc : List ChangeInfo × Nat) (part : DiffPart) : List ChangeInfo × Nat :=
  match part.tag with
  | DTag.added => addBlock "added" acc part.lines
  | DTag.removed => addBlock "removed" acc part.lines
  | DTag.unchanged => (acc.1, acc.2 + part.lines.length)

/-- The change-collection loop of `compareFiles` as a fold of `collectStep`
starting from no changes and `lineNumber = 0`. -/
def collectChanges (diff : List DiffPart) : List ChangeInfo × Nat :=
  diff.foldl collectStep ([], 0)

/-- The diff-then-collect pipeline of `compareFiles` on the two contents
(`diffLines(remoteContent, localContent)` then the loop). -/
def compareChanges (remoteLines localLines : List String) : List ChangeInfo × Nat :=
  collectChanges (diffLines remoteLines localLines)

/-- Total number of physical lines consumed from a diff. -/
def physicalLines (diff : List DiffPart) : Nat :=
  (diff.map (fun p => p.lines.length)).sum

/-- How many increments one block actually contributes to the running line
counter: all lines for Unchanged blocks, only non-blank lines for Added and
Removed blocks. -/
def consumedCount (p : DiffPart) : Nat :=
  match p.tag with
  | DTag.unchanged => p.lines.length
  | _ => (p.lines.filter (fun l => jsTrim l != "")).length

/-! ### Relationship inference (codeAnalyzer.ts lines 411-445 and 586-657) -/

/-- One RelationshipRecord (the source's `RelationshipInfo`). -/
structure RelationshipInfo where
  type : String
  oldReference : String
  newReference : String
  confidence : ℚ
  description : String
deriving DecidableEq

/-- One step of the inner best-match loop of `analyzeRelationships`:
update `(bestMatch, bestConfidence)` when
`confidence > bestConfidence && confidence > 0.7`. -/
def bestStep (localMethod : String) (best : Option String × ℚ) (remoteMethod : String) :
    Option String × ℚ :=
  let confidence := calculateMethodSimilarity localMethod remoteMethod
  if confidence > best.2 ∧ confidence > 7/10 then (some remoteMethod, confidence) else best

/-- The inner best-match loop of `analyzeRelationships`: fold `bestStep`
over the baseline identifiers starting from `(null, 0)`. -/
def findBestMatch (localMethod : String) (remoteMethods : List String) : Option String × ℚ :=
  remoteMethods.foldl (bestStep localMethod) (none, 0)

/-- One step of the rename-detection loop of `analyzeRelationships`.
JS truthiness: in `if (bestMatch && bestMatch !== localMethod)` the empty
string is falsy, hence the extra disequality. -/
def renameStep (remoteMethods : List String) (relationships : List RelationshipInfo)
    (localMethod : String) : List RelationshipInfo :=
  match (findBestMatch localMethod remoteMethods).1 with
  | none => relationships
  | some bestMatch =>
    if bestMatch ≠ "" ∧ bestMatch ≠ localMethod then
      relationships ++ [⟨"method_rename", bestMatch, localMethod,
        (findBestMatch localMethod remoteMethods).2,
        "Method \x27" ++ bestMatch ++ "\x27 appears to be renamed to \x27" ++ localMethod ++ "\x27"⟩]
    else relationships

/-- The rename-detection loop of `analyzeRelationships` (codeAnalyzer.ts
lines 411-445), taken as a function of the two extracted identifier lists
(its only inputs after the calls to the regex-based `extractMethods`;
stating it over arbitrary lists covers every extraction result). -/
def analyzeRelationships (localMethods remoteMethods : List String) : List RelationshipInfo :=
  localMethods.foldl (renameStep remoteMethods) []

/-- The control-flow keyword list of `extractControlFlow`. -/
def controlFlowKeywords : List String :=
  ["if", "else", "for", "while", "switch", "case", "try", "catch"]

/-- The source's `extractControlFlow(content)`: every line whose trimmed form
contains some control-flow keyword as a substring contributes its trimmed
form (once, thanks to the `break`). -/
def extractControlFlow (lines : List String) : List String :=
  lines.foldr (fun line acc =>
    let trimmed := jsTrim line
    if controlFlowKeywords.any (fun keyword => strContains trimmed keyword) then
      trimmed :: acc
    else acc) []

/-- One entry of the positional array diff built by `compareArrays`. -/
structure FlowDiff where
  old : Option String
  new : Option String
  description : String
deriving DecidableEq

/-- The source's `compareArrays(arr1, arr2)`: positional, index-by-index
comparison; tails map to pure additions or removals. -/
def compareArrays : List String → List String → List FlowDiff
  | [], [] => []
  | [], b :: br => ⟨none, some b, "Added control flow: " ++ b⟩ :: compareArrays [] br
  | a :: ar, [] => ⟨some a, none, "Removed control flow: " ++ a⟩ :: compareArrays ar []
  | a :: ar, b :: br =>
      (if a = b then [] else
        [⟨some a, some b, "Modified control flow: " ++ a ++ " -> " ++ b⟩]) ++ compareArrays ar br

/-- The source's `analyzeLogicChanges(localContent, remoteContent, ext)`:
every positional control-flow difference becomes a `logic_change` record
with fixed confidence 0.9. -/
def analyzeLogicChanges (localLines remoteLines : List String) : List RelationshipInfo :=
  let localControlFlow := extractControlFlow localLines
  let remoteControlFlow := extractControlFlow remoteLines
  (compareArrays localControlFlow remoteControlFlow).map (fun d =>
    ⟨"logic_change", d.old.getD "none", d.new.getD "none", 9/10,
      "Control flow change: " ++ d.description⟩)

/-! ### Metrics (codeAnalyzer.ts lines 506-549) -/

/-- The source's `calculateComplexityScore`: 0.1 per change, plus 0.5 per
High-significance change, plus 0.3 per relationship, clamped to 10. -/
def calculateComplexityScore (changes : List ChangeInfo)
    (relationships : List RelationshipInfo) : ℚ :=
  let score := (changes.length : ℚ) * (1/10)
    + (((changes.filter (fun c => c.significance == "high")).length : ℚ)) * (1/2)
    + (relationships.length : ℚ) * (3/10)
  min score 10

/-- The source's `assessMaintainabilityImpact(complexityScore, significantChanges)`. -/
def assessMaintainabilityImpact (complexityScore : ℚ) (significantChanges : Nat) : String :=
  if complexityScore < 3 ∧ significantChanges < 5 then "low"
  else if complexityScore < 7 ∧ significantChanges < 15 then "medium"
  else "high"

/-- The source's `AnalysisMetrics`. -/
structure AnalysisMetrics where
  totalChanges : Nat
  significantChanges : Nat
  complexityScore : ℚ
  maintainabilityImpact : String
deriving DecidableEq

/-- The source's `calculateMetrics(changes, relationships)`. -/
def calculateMetrics (changes : List ChangeInfo)
    (relationships : List RelationshipInfo) : AnalysisMetrics :=
  let significantChanges := (changes.filter (fun c => c.significance == "high")).length
  let complexityScore := calculateComplexityScore changes relationships
  ⟨changes.length, significantChanges, complexityScore,
    assessMaintainabilityImpact complexityScore significantChanges⟩

/-- Numeric rank of a maintainability level, for the order low < medium < high. -/
def impactRank (impact : String) : Nat :=
  if impact = "low" then 0 else if impact = "medium" then 1 else 2

/-! ### Refactoring rules (refactoringEngine.ts)

Import-line recognition embeds the regex
`import\s+(?:\{([^}]+)\}|(\w+))\s+from` used by `removeUnusedImports`:
the literal `import`, mandatory whitespace, then either a brace-enclosed
non-empty list (captured) or a word (captured), then mandatory whitespace
and the literal `from`. A match may start at any position of the line. -/

/-- Mandatory whitespace then the literal `from` (the regex tail). -/
def matchFromSuffix (r : List Char) : Bool :=
  let ws := r.takeWhile (fun c => c.isWhitespace)
  if ws.isEmpty then false
  else "from".toList.isPrefixOf (r.dropWhile (fun c => c.isWhitespace))

/-- One attempt of the import regex anchored at the head of `cs`; returns
the list of imported names (the brace list split on commas and trimmed, or
the single default-style name). -/
def matchImportAt (cs : List Char) : Option (List String) :=
  if "import".toList.isPrefixOf cs then
    let r1 := cs.drop 6
    if (r1.takeWhile (fun c => c.isWhitespace)).isEmpty then none
    else
      match r1.dropWhile (fun c => c.isWhitespace) with
      | [] => none
      | c :: rest =>
        if c = lbrace then
          let inner := rest.takeWhile (fun d => d != rbrace)
          match rest.drop inner.length with
          | [] => none
          | _ :: r4 =>
            if inner.isEmpty then none
            else if matchFromSuffix r4 then
              some ((splitOnComma inner).map jsTrim)
            else none
        else
          let word := (c :: rest).takeWhile isWordChar
          if word.isEmpty then none
          else if matchFromSuffix ((c :: rest).drop word.length) then
            some [String.mk word]
          else none
  else none

/-- Scan of the whole line for the first position where the import regex
matches (JS `line.match(...)` without the global flag). -/
def scanImport : List Char → Option (List String)
  | [] => none
  | c :: rest =>
    match matchImportAt (c :: rest) with
    | some r => some r
    | none => scanImport rest

/-- Imported names of a line, when the line matches the import regex. -/
def matchImportLine (line : String) : Option (List String) :=
  scanImport line.toList

/-- Membership in the source's `usedIdentifiers` set, for an item drawn from
some import group: some line includes the item as a substring and does not
start with `import`. -/
def importUsed (lines : List String) (item : String) : Bool :=
  lines.any (fun line => strContains line item && !(jsStartsWith line "import"))

/-- The source's `removeUnusedImports(content)`: drop every import line none
of whose imported names is used elsewhere, recording the dropped 1-based
line numbers. -/
def removeUnusedImports (lines : List String) : List String × List Nat :=
  lines.enum.foldr (fun (p : Nat × String) (acc : List String × List Nat) =>
    match matchImportLine p.2 with
    | some items =>
      if items.any (importUsed lines) then (p.2 :: acc.1, acc.2)
      else (acc.1, (p.1 + 1) :: acc.2)
    | none => (p.2 :: acc.1, acc.2)) ([], [])

/-- The import test of `organizeImports`: the trimmed line starts with
`import` followed by a space. -/
def isImportLine (l : String) : Bool :=
  jsStartsWith (jsTrim l) "import "

/-- The collection loop of `organizeImports`: import lines (anywhere in the
file) are hoisted; blank lines are dropped while `inImportSection` is still
true; everything else closes the section and stays in order. -/
def splitImportsGo : List String → Bool → List String × List String
  | [], _ => ([], [])
  | l :: ls, inImportSection =>
    if isImportLine l then
      let r := splitImportsGo ls inImportSection
      (l :: r.1, r.2)
    else if jsTrim l == "" && inImportSection then
      splitImportsGo ls inImportSection
    else
      let r := splitImportsGo ls false
      (r.1, l :: r.2)

/-- JS default `Array.prototype.sort` on strings: lexicographic. -/
def sortLines (ls : List String) : List String :=
  ls.insertionSort (fun a b => a ≤ b)

/-- The source's `organizeImports(content)`. `Array.prototype.sort` sorts in
place and returns the same array, so by the time the two join strings are
computed both come from the already-sorted array — which is why the
`changed` flag compares the sorted string with itself. -/
def organizeImports (lines : List String) : List String × Bool :=
  let pa := splitImportsGo lines true
  let sortedImports := sortLines pa.1
  let originalImportsString := joinWithNL sortedImports
  let sortedImportsString := joinWithNL sortedImports
  (sortedImports ++ [""] ++ pa.2, originalImportsString != sortedImportsString)

/-- One recorded refactoring change (the source's `RefactoringChange`). -/
structure RefactoringChange where
  file : String
  type : String
  description : String
  lineNumbers : List Nat
deriving DecidableEq

/-- The rule dispatch of `applyRule` (lines 123-187), restricted to the two
rules the claims exercise; the `consistent-naming` and `format-code`
branches are not modelled here. Rule names without a handler fall through
the switch leaving the content unchanged, as in the source. -/
def applyRule (rule : String) (filePath : String) (content : List String) :
    List String × List RefactoringChange :=
  if rule = "remove-unused-imports" then
    let importResult := removeUnusedImports content
    (importResult.1,
      if importResult.2.length > 0 then
        [⟨filePath, "import", "Removed unused imports", importResult.2⟩]
      else [])
  else if rule = "organize-imports" then
    let organizeResult := organizeImports content
    (organizeResult.1,
      if organizeResult.2 then [⟨filePath, "import", "Organized imports", [1]⟩] else [])
  else (content, [])

/-- The rule loop of `refactorFile` (lines 96-104): each rule runs on the
output of the previous one; changes are appended and `hasChanges` is raised
only when the rule altered the content. -/
def applyRules (filePath : String) (content : List String) (rules : List String) :
    List String × List RefactoringChange × Bool :=
  rules.foldl (fun acc rule =>
    let ruleChanges := applyRule rule filePath acc.1
    if ruleChanges.1 ≠ acc.1 then (ruleChanges.1, acc.2.1 ++ ruleChanges.2, true)
    else acc) (content, [], false)

/-- Count of lines with non-empty trim (the guard's notion of logical lines). -/
def countNonBlank (lines : List String) : Nat :=
  (lines.filter (fun l => jsTrim l != "")).length

/-- Occurrences of a character in a content (the guard counts braces with a
global regex over the joined content; newlines contain no braces, so the
per-line sum is the same count). -/
def countChar (c : Char) (lines : List String) : Nat :=
  (lines.map (fun l => (l.toList.filter (fun d => d == c)).length)).sum

/-- Node's `path.extname` for the plain file names used here: the suffix
from the last dot, empty when there is none. -/
def extname (p : String) : String :=
  let revTaken := p.toList.reverse.takeWhile (fun c => c != '.')
  if revTaken.length = p.toList.length then "" else String.mk ('.' :: revTaken.reverse)

/-- The source's `verifyLogicPreservation(original, modified, filePath)`:
fail when the non-blank line counts differ by more than 10% of the
original's, then for `.js`/`.ts` files require balanced brace counts in the
modified content. The source compares the integer `lineDifference` against
the float product `originalLines.length * 0.1`; for an integer left-hand
side that comparison is exactly the integer comparison
`10 * lineDifference > originalLines.length` used here. -/
def verifyLogicPreservation (originalContent modifiedContent : List String)
    (filePath : String) : Bool :=
  let originalLines := originalContent.filter (fun l => jsTrim l != "")
  let modifiedLines := modifiedContent.filter (fun l => jsTrim l != "")
  let lineDifference := ((originalLines.length : Int) - (modifiedLines.length : Int)).natAbs
  if 10 * lineDifference > originalLines.length then false
  else
    let ext := extname filePath
    if ext = ".js" || ext = ".ts" then
      countChar lbrace modifiedContent == countChar rbrace modifiedContent
    else true

/-- The write decision of `refactorFile` (lines 82-121), with the filesystem
effect made explicit: `ok (some w, cs)` persists `w`, `ok (none, cs)`
leaves the file untouched, `error` aborts without writing. -/
def refactorFile (filePath : String) (content : List String) (rules : List String)
    (preserveLogic : Bool) : Except String (Option (List String) × List RefactoringChange) :=
  let r := applyRules filePath content rules
  if r.2.2 && preserveLogic then
    if verifyLogicPreservation content r.1 filePath then Except.ok (some r.1, r.2.1)
    else Except.error ("Logic verification failed for " ++ filePath ++ ". Refactoring aborted.")
  else if r.2.2 then Except.ok (some r.1, r.2.1)
  else Except.ok (none, r.2.1)

deriving instance DecidableEq for Except

/-- Filesystem model: an association list from paths to line contents. -/
abbrev FileSys := List (String × List String)

/-- Read a file. -/
def fsRead (fsys : FileSys) (p : String) : Option (List String) :=
  (fsys.find? (fun e => e.1 == p)).map (fun e => e.2)

/-- Overwrite a file in place. -/
def fsWrite (fsys : FileSys) (p : String) (c : List String) : FileSys :=
  fsys.map (fun e => if e.1 == p then (p, c) else e)

/-- `refactorFile` against the filesystem: read, apply the rules, then
either persist the rewrite, leave the file untouched, or propagate the
guard failure. -/
def refactorFileFS (fsys : FileSys) (filePath : String) (rules : List String)
    (preserveLogic : Bool) : Except String (FileSys × List RefactoringChange) :=
  match fsRead fsys filePath with
  | none => Except.error ("ENOENT: " ++ filePath)
  | some content =>
    match refactorFile filePath content rules preserveLogic with
    | Except.error e => Except.error e
    | Except.ok (none, cs) => Except.ok (fsys, cs)
    | Except.ok (some w, cs) => Except.ok (fsWrite fsys filePath w, cs)

/-- The per-file loop of `refactorCode` (lines 62-79): files strictly in
order, each written before the next is examined; a thrown error aborts the
loop, and the error outcome carries the filesystem as already mutated —
there is no rollback. Accumulates `changes` and `processedFiles` (a file is
recorded only when it produced at least one `RefactoringChange`). -/
def refactorFiles (rules : List String) (preserveLogic : Bool) :
    FileSys → List String → List RefactoringChange → List String →
    Except (String × FileSys) (FileSys × List RefactoringChange × List String)
  | fsys, [], changes, processedFiles => Except.ok (fsys, changes, processedFiles)
  | fsys, f :: rest, changes, processedFiles =>
    match refactorFileFS fsys f rules preserveLogic with
    | Except.error e => Except.error (e, fsys)
    | Except.ok (fsys2, fileChanges) =>
      refactorFiles rules preserveLogic fsys2 rest (changes ++ fileChanges)
        (if fileChanges.length > 0 then processedFiles ++ [f] else processedFiles)

/-- The two guard checks in the spec's wording (section 4.7): non-blank line
counts differing by at most 10% of the original's, and equal brace counts
for `.js`/`.ts` files; to be compared with the source's
`verifyLogicPreservation`. -/
def specGuardChecks (filePath : String) (original modified : List String) : Prop :=
  ((((countNonBlank original : Int) - (countNonBlank modified : Int)).natAbs : ℚ)
      ≤ (countNonBlank original : ℚ) / 10) ∧
  ((extname filePath = ".js" ∨ extname filePath = ".ts") →
      countChar lbrace modified = countChar rbrace modified)

theorem levRec_symm (fuel : Nat) : ∀ xs ys : List Char,
    levRec fuel xs ys = levRec fuel ys xs := by
  induction fuel with
  | zero =>
    intro xs ys
    cases xs <;> cases ys <;> simp [levRec]
  | succ f ih =>
    intro xs ys
    cases xs with
    | nil => cases ys <;> simp [levRec]
    | cons x xs =>
      cases ys with
      | nil => simp [levRec]
      | cons y ys =>
        by_cases h : x = y
        · subst h
          simp [levRec, ih xs ys]
        · have h' : ¬ y = x := fun hh => h hh.symm
          simp only [levRec, if_neg h, if_neg h']
          rw [ih xs ys, ih (x :: xs) ys, ih xs (y :: ys)]
          omega

theorem levenshteinDistance_symm (s t : String) :
    levenshteinDistance s t = levenshteinDistance t s := by
  unfold levenshteinDistance
  rw [Nat.add_comm s.length t.length, levRec_symm]

theorem calculateMethodSimilarity_self (x : String) : calculateMethodSimilarity x x = 1 :=
  if_pos rfl

theorem calculateMethodSimilarity_symm (m1 m2 : String) :
    calculateMethodSimilarity m1 m2 = calculateMethodSimilarity m2 m1 := by
  unfold calculateMethodSimilarity
  by_cases he : m1 = m2
  · subst he; simp
  · have he' : ¬ m2 = m1 := fun h => he h.symm
    simp only [if_neg he, if_neg he']
    rcases Nat.lt_trichotomy m1.length m2.length with hlt | heq | hgt
    · have h1 : ¬ m1.length > m2.length := by omega
      have h2 : m2.length > m1.length := hlt
      simp [h1, h2]
    · have h1 : ¬ m1.length > m2.length := by omega
      have h2 : ¬ m2.length > m1.length := by omega
      simp only [if_neg h1, if_neg h2]
      rw [levenshteinDistance_symm m2 m1, heq]
    · have h1 : m1.length > m2.length := hgt
      have h2 : ¬ m2.length > m1.length := by omega
      simp [h1, h2]

theorem sim_getUser_getUserData : calculateMethodSimilarity "getUser" "getUserData" = 7/11 := by
  simp +decide [calculateMethodSimilarity]
  rw [show levenshteinDistance "getUserData" "getUser" = 4 from by decide,
      show "getUserData".length = 11 from by decide]
  norm_num

theorem sim_a_xyz : calculateMethodSimilarity "a" "xyz" = 0 := by
  simp +decide [calculateMethodSimilarity]
  rw [show levenshteinDistance "xyz" "a" = 3 from by decide,
      show "xyz".length = 3 from by decide]
  norm_num

theorem sim_gud_gu : calculateMethodSimilarity "getUserData" "getUser" = 7/11 := by
  rw [calculateMethodSimilarity_symm]; exact sim_getUser_getUserData

theorem findBestMatch_gud : findBestMatch "getUserData" ["getUser"] = (none, 0) := by
  simp [findBestMatch, bestStep, sim_gud_gu]
  norm_num

theorem noRename_getUserData : analyzeRelationships ["getUserData"] ["getUser"] = [] := by
  simp [analyzeRelationships, renameStep, findBestMatch_gud]

/-- Claim C2, counterexample: the claim asserts
`similarity("getUser","getUserData") > 0.7`, but on the code the value is
`7/11 ≈ 0.636`, which is not greater than `0.7`. -/
theorem claim_C2_counterexample :
    ¬ (calculateMethodSimilarity "getUser" "getUserData" > 7/10) := by
  rw [sim_getUser_getUserData]
  norm_num

/-- Claim C2 as amended: the identifier-similarity function satisfies
`similarity(x,x) = 1.0` and `similarity(x,y) = similarity(y,x)`; but
`similarity("getUser","getUserData") = 7/11 < 0.7` — so no MethodRename
relationship is emitted for that pair — and `similarity("a","xyz") < 0.7`
(no relationship emitted for that pair either). -/
theorem claim_C2_amended :
    (∀ x : String, calculateMethodSimilarity x x = 1) ∧
    (∀ x y : String, calculateMethodSimilarity x y = calculateMethodSimilarity y x) ∧
    calculateMethodSimilarity "getUser" "getUserData" = 7/11 ∧
    calculateMethodSimilarity "getUser" "getUserData" < 7/10 ∧
    calculateMethodSimilarity "a" "xyz" < 7/10 ∧
    analyzeRelationships ["getUserData"] ["getUser"] = [] := by
  refine ⟨calculateMethodSimilarity_self, calculateMethodSimilarity_symm,
    sim_getUser_getUserData, ?_, ?_, noRename_getUserData⟩
  · rw [sim_getUser_getUserData]; norm_num
  · rw [sim_a_xyz]; norm_num

theorem bestStep_inv (l r : String) (acc : Option String × ℚ)
    (hacc : ∀ b, acc.1 = some b → acc.2 > 7/10) :
    ∀ b, (bestStep l acc r).1 = some b → (bestStep l acc r).2 > 7/10 := by
  intro b hb
  unfold bestStep at hb ⊢
  by_cases hc : calculateMethodSimilarity l r > acc.2 ∧ calculateMethodSimilarity l r > 7/10
  · simp only [if_pos hc] at hb ⊢
    exact hc.2
  · simp only [if_neg hc] at hb ⊢
    exact hacc b hb

theorem foldBest_inv (l : String) : ∀ (rm : List String) (acc : Option String × ℚ),
    (∀ b, acc.1 = some b → acc.2 > 7/10) →
    ∀ b, (rm.foldl (bestStep l) acc).1 = some b → (rm.foldl (bestStep l) acc).2 > 7/10 := by
  intro rm
  induction rm with
  | nil => intro acc hacc b hb; exact hacc b hb
  | cons r rs ih =>
    intro acc hacc b hb
    exact ih (bestStep l acc r) (bestStep_inv l r acc hacc) b hb

theorem findBestMatch_confidence (l : String) (rm : List String) (b : String)
    (h : (findBestMatch l rm).1 = some b) : (findBestMatch l rm).2 > 7/10 :=
  foldBest_inv l rm (none, 0) (fun b' hb' => by simp at hb') b h

theorem renameStep_inv (rm : List String) (acc : List RelationshipInfo) (l : String)
    (hacc : ∀ rel ∈ acc, rel.confidence ≥ 7/10) :
    ∀ rel ∈ renameStep rm acc l, rel.confidence ≥ 7/10 := by
  intro rel hrel
  unfold renameStep at hrel
  cases hm : (findBestMatch l rm).1 with
  | none => rw [hm] at hrel; exact hacc rel hrel
  | some bm =>
    rw [hm] at hrel
    dsimp only at hrel
    by_cases hcond : bm ≠ "" ∧ bm ≠ l
    · rw [if_pos hcond] at hrel
      rcases List.mem_append.1 hrel with h | h
      · exact hacc rel h
      · have heq := List.mem_singleton.1 h
        subst heq
        exact le_of_lt (findBestMatch_confidence l rm bm hm)
    · rw [if_neg hcond] at hrel
      exact hacc rel hrel

theorem analyzeRelationships_inv (rm : List String) :
    ∀ (lms : List String) (acc : List RelationshipInfo),
    (∀ rel ∈ acc, rel.confidence ≥ 7/10) →
    ∀ rel ∈ lms.foldl (renameStep rm) acc, rel.confidence ≥ 7/10 := by
  intro lms
  induction lms with
  | nil => intro acc hacc; exact hacc
  | cons l ls ih =>
    intro acc hacc
    exact ih (renameStep rm acc l) (renameStep_inv rm acc l hacc)

theorem analyzeLogicChanges_conf (a b : List String) :
    ∀ rel ∈ analyzeLogicChanges a b, rel.confidence ≥ 7/10 := by
  intro rel hrel
  unfold analyzeLogicChanges at hrel
  rcases List.mem_map.1 hrel with ⟨d, _, hd⟩
  subst hd
  norm_num

/-- Claim C6: every RelationshipRecord produced by the rename-detection loop
(for any extracted identifier lists) or by the logic-change detection has
confidence at least 0.7; no record below that threshold is ever emitted. -/
theorem claim_C6_confidence (localMethods remoteMethods a b : List String)
    (rel : RelationshipInfo)
    (h : rel ∈ analyzeRelationships localMethods remoteMethods ∨
         rel ∈ analyzeLogicChanges a b) :
    rel.confidence ≥ 7/10 := by
  rcases h with h | h
  · exact analyzeRelationships_inv remoteMethods localMethods [] (by simp) rel h
  · exact analyzeLogicChanges_conf a b rel h

theorem logic_ifx : analyzeLogicChanges ["if (x)"] []
    = [⟨"logic_change", "if (x)", "none", 9/10,
        "Control flow change: Removed control flow: if (x)"⟩] := by
  simp +decide [analyzeLogicChanges, extractControlFlow, compareArrays, controlFlowKeywords, jsTrim]

/-- Witness for claim C6 at a concrete input: the logic-change detector on a
single removed `if` line emits exactly one record, and its confidence (0.9)
is at least 0.7. -/
theorem claim_C6_confidence_witness :
    ((⟨"logic_change", "if (x)", "none", 9/10,
        "Control flow change: Removed control flow: if (x)"⟩ : RelationshipInfo) ∈
          analyzeRelationships [] [] ∨
     (⟨"logic_change", "if (x)", "none", 9/10,
        "Control flow change: Removed control flow: if (x)"⟩ : RelationshipInfo) ∈
          analyzeLogicChanges ["if (x)"] []) ∧
    (⟨"logic_change", "if (x)", "none", 9/10,
        "Control flow change: Removed control flow: if (x)"⟩ : RelationshipInfo).confidence ≥ 7/10 :=
  have hmem : (⟨"logic_change", "if (x)", "none", 9/10,
      "Control flow change: Removed control flow: if (x)"⟩ : RelationshipInfo) ∈
        analyzeLogicChanges ["if (x)"] [] := by
    rw [logic_ifx]; exact List.mem_singleton.2 rfl
  ⟨Or.inr hmem, claim_C6_confidence [] [] ["if (x)"] [] _ (Or.inr hmem)⟩

theorem impactRank_low : impactRank "low" = 0 := rfl

theorem impactRank_medium : impactRank "medium" = 1 := rfl

theorem impactRank_high : impactRank "high" = 2 := rfl

theorem assess_mono {s s' : ℚ} {g g' : Nat} (hs : s ≤ s') (hg : g ≤ g') :
    impactRank (assessMaintainabilityImpact s g) ≤
      impactRank (assessMaintainabilityImpact s' g') := by
  unfold assessMaintainabilityImpact
  by_cases ha : s < 3 ∧ g < 5
  · rw [if_pos ha, impactRank_low]
    exact Nat.zero_le _
  · have ha' : ¬ (s' < 3 ∧ g' < 5) := fun h => ha ⟨lt_of_le_of_lt hs h.1, by omega⟩
    rw [if_neg ha, if_neg ha']
    by_cases hb : s < 7 ∧ g < 15
    · rw [if_pos hb, impactRank_medium]
      by_cases hb' : s' < 7 ∧ g' < 15
      · rw [if_pos hb', impactRank_medium]
      · rw [if_neg hb', impactRank_high]
        omega
    · have hb' : ¬ (s' < 7 ∧ g' < 15) := fun h => hb ⟨lt_of_le_of_lt hs h.1, by omega⟩
      rw [if_neg hb, if_neg hb', impactRank_high]

theorem highCount_append (changes : List ChangeInfo) (c : ChangeInfo)
    (hc : c.significance = "high") :
    ((changes ++ [c]).filter (fun x => x.significance == "high")).length
      = (changes.filter (fun x => x.significance == "high")).length + 1 := by
  rw [List.filter_append]
  simp [List.filter, hc]

theorem score_append_high (changes : List ChangeInfo) (rels : List RelationshipInfo)
    (c : ChangeInfo) (hc : c.significance = "high") :
    calculateComplexityScore changes rels ≤ calculateComplexityScore (changes ++ [c]) rels := by
  unfold calculateComplexityScore
  rw [List.length_append, highCount_append changes c hc]
  apply min_le_min _ (le_refl (10 : ℚ))
  push_cast
  linarith

/-- Claim C7: appending one more High-significance ChangeRecord never
decreases the complexity score and never moves the maintainability impact
to a lower level (low < medium < high). -/
theorem claim_C7_metrics_mono (changes : List ChangeInfo) (rels : List RelationshipInfo)
    (c : ChangeInfo) (hc : c.significance = "high") :
    (calculateMetrics changes rels).complexityScore ≤
      (calculateMetrics (changes ++ [c]) rels).complexityScore ∧
    impactRank (calculateMetrics changes rels).maintainabilityImpact ≤
      impactRank (calculateMetrics (changes ++ [c]) rels).maintainabilityImpact := by
  constructor
  · exact score_append_high changes rels c hc
  · have hg : (changes.filter (fun x => x.significance == "high")).length ≤
        ((changes ++ [c]).filter (fun x => x.significance == "high")).length := by
      rw [highCount_append changes c hc]; omega
    exact assess_mono (score_append_high changes rels c hc) hg

/-- Witness for claim C7 at a concrete input: appending one High-significance
record to the empty change list. -/
theorem claim_C7_metrics_mono_witness :
    (⟨"added", 0, "x", "high"⟩ : ChangeInfo).significance = "high" ∧
    ((calculateMetrics [] []).complexityScore ≤
        (calculateMetrics [⟨"added", 0, "x", "high"⟩] []).complexityScore ∧
      impactRank (calculateMetrics [] []).maintainabilityImpact ≤
        impactRank (calculateMetrics [⟨"added", 0, "x", "high"⟩] []).maintainabilityImpact) :=
  ⟨rfl, claim_C7_metrics_mono [] [] ⟨"added", 0, "x", "high"⟩ rfl⟩

theorem oldOfTagged_cons (t : DTag × String) (rest : List (DTag × String)) :
    oldOfTagged (t :: rest)
      = if t.1 = DTag.added then oldOfTagged rest else t.2 :: oldOfTagged rest := rfl

theorem newOfTagged_cons (t : DTag × String) (rest : List (DTag × String)) :
    newOfTagged (t :: rest)
      = if t.1 = DTag.removed then newOfTagged rest else t.2 :: newOfTagged rest := rfl

theorem reconstructOld_cons (p : DiffPart) (ps : List DiffPart) :
    reconstructOld (p :: ps)
      = (if p.tag = DTag.added then [] else p.lines) ++ reconstructOld ps := rfl

theorem reconstructNew_cons (p : DiffPart) (ps : List DiffPart) :
    reconstructNew (p :: ps)
      = (if p.tag = DTag.removed then [] else p.lines) ++ reconstructNew ps := rfl

theorem oldOfTagged_append (a b : List (DTag × String)) :
    oldOfTagged (a ++ b) = oldOfTagged a ++ oldOfTagged b := by
  induction a with
  | nil => rfl
  | cons hd rest ih =>
    rw [List.cons_append, oldOfTagged_cons, oldOfTagged_cons, ih]
    by_cases h : hd.1 = DTag.added <;> simp [h]

theorem newOfTagged_append (a b : List (DTag × String)) :
    newOfTagged (a ++ b) = newOfTagged a ++ newOfTagged b := by
  induction a with
  | nil => rfl
  | cons hd rest ih =>
    rw [List.cons_append, newOfTagged_cons, newOfTagged_cons, ih]
    by_cases h : hd.1 = DTag.removed <;> simp [h]

theorem oldOfTagged_addedMap (ys : List String) :
    oldOfTagged (ys.map (fun y => (DTag.added, y))) = [] := by
  induction ys with
  | nil => rfl
  | cons y ys ih => simp [oldOfTagged_cons, ih]

theorem oldOfTagged_removedMap (xs : List String) :
    oldOfTagged (xs.map (fun x => (DTag.removed, x))) = xs := by
  induction xs with
  | nil => rfl
  | cons x xs ih => simp [oldOfTagged_cons, ih]

theorem newOfTagged_addedMap (ys : List String) :
    newOfTagged (ys.map (fun y => (DTag.added, y))) = ys := by
  induction ys with
  | nil => rfl
  | cons y ys ih => simp [newOfTagged_cons, ih]

theorem newOfTagged_removedMap (xs : List String) :
    newOfTagged (xs.map (fun x => (DTag.removed, x))) = [] := by
  induction xs with
  | nil => rfl
  | cons x xs ih => simp [newOfTagged_cons, ih]

theorem diffTagged_old (fuel : Nat) : ∀ xs ys : List String,
    oldOfTagged (diffTagged fuel xs ys) = xs := by
  induction fuel with
  | zero =>
    intro xs ys
    cases xs with
    | nil => simp [diffTagged, oldOfTagged_addedMap]
    | cons x xs' =>
      cases ys with
      | nil =>
        simp only [diffTagged]
        simp [oldOfTagged_cons, oldOfTagged_removedMap]
      | cons y ys' =>
        simp only [diffTagged]
        rw [show ((x :: xs').map (fun x' => (DTag.removed, x')) ++
            (y :: ys').map (fun y' => (DTag.added, y'))) =
            ((x :: xs').map (fun x' => (DTag.removed, x'))) ++
            ((y :: ys').map (fun y' => (DTag.added, y'))) from rfl,
          oldOfTagged_append, oldOfTagged_removedMap, oldOfTagged_addedMap, List.append_nil]
  | succ f ih =>
    intro xs ys
    cases xs with
    | nil => simp [diffTagged, oldOfTagged_addedMap]
    | cons x xs' =>
      cases ys with
      | nil =>
        simp only [diffTagged]
        simp [oldOfTagged_cons, oldOfTagged_removedMap]
      | cons y ys' =>
        simp only [diffTagged]
        by_cases h : x = y
        · subst h
          simp [oldOfTagged_cons, ih]
        · rw [if_neg h]
          by_cases h2 : lcsLen (xs'.length + ys'.length + 1) xs' (y :: ys') ≥
              lcsLen (xs'.length + ys'.length + 1) (x :: xs') ys'
          · rw [if_pos h2]
            simp [oldOfTagged_cons, ih]
          · rw [if_neg h2]
            simp [oldOfTagged_cons, ih]

theorem diffTagged_new (fuel : Nat) : ∀ xs ys : List String,
    newOfTagged (diffTagged fuel xs ys) = ys := by
  induction fuel with
  | zero =>
    intro xs ys
    cases xs with
    | nil => simp [diffTagged, newOfTagged_addedMap]
    | cons x xs' =>
      cases ys with
      | nil =>
        simp only [diffTagged]
        simp [newOfTagged_cons, newOfTagged_removedMap]
      | cons y ys' =>
        simp only [diffTagged]
        rw [show ((x :: xs').map (fun x' => (DTag.removed, x')) ++
            (y :: ys').map (fun y' => (DTag.added, y'))) =
            ((x :: xs').map (fun x' => (DTag.removed, x'))) ++
            ((y :: ys').map (fun y' => (DTag.added, y'))) from rfl,
          newOfTagged_append, newOfTagged_removedMap, newOfTagged_addedMap, List.nil_append]
  | succ f ih =>
    intro xs ys
    cases xs with
    | nil => simp [diffTagged, newOfTagged_addedMap]
    | cons x xs' =>
      cases ys with
      | nil =>
        simp only [diffTagged]
        simp [newOfTagged_cons, newOfTagged_removedMap]
      | cons y ys' =>
        simp only [diffTagged]
        by_cases h : x = y
        · subst h
          simp [newOfTagged_cons, ih]
        · rw [if_neg h]
          by_cases h2 : lcsLen (xs'.length + ys'.length + 1) xs' (y :: ys') ≥
              lcsLen (xs'.length + ys'.length + 1) (x :: xs') ys'
          · rw [if_pos h2]
            simp [newOfTagged_cons, ih]
          · rw [if_neg h2]
            simp [newOfTagged_cons, ih]

theorem reconstructOld_groupParts (tl : List (DTag × String)) :
    reconstructOld (groupParts tl) = oldOfTagged tl := by
  induction tl with
  | nil => rfl
  | cons hd rest ih =>
    obtain ⟨t, l⟩ := hd
    simp only [groupParts]
    cases hgp : groupParts rest with
    | nil =>
      rw [hgp] at ih
      have hrest : oldOfTagged rest = [] := ih.symm
      rw [oldOfTagged_cons, hrest, reconstructOld_cons]
      by_cases ht : t = DTag.added <;> simp [ht] <;> rfl
    | cons p ps =>
      rw [hgp] at ih
      dsimp only
      by_cases hpt : p.tag = t
      · rw [if_pos hpt, reconstructOld_cons, oldOfTagged_cons, ← ih, reconstructOld_cons]
        by_cases ht : t = DTag.added <;> simp [ht, hpt]
      · rw [if_neg hpt, reconstructOld_cons, oldOfTagged_cons, ← ih]
        by_cases ht : t = DTag.added <;> simp [ht]

theorem reconstructNew_groupParts (tl : List (DTag × String)) :
    reconstructNew (groupParts tl) = newOfTagged tl := by
  induction tl with
  | nil => rfl
  | cons hd rest ih =>
    obtain ⟨t, l⟩ := hd
    simp only [groupParts]
    cases hgp : groupParts rest with
    | nil =>
      rw [hgp] at ih
      have hrest : newOfTagged rest = [] := ih.symm
      rw [newOfTagged_cons, hrest, reconstructNew_cons]
      by_cases ht : t = DTag.removed <;> simp [ht] <;> rfl
    | cons p ps =>
      rw [hgp] at ih
      dsimp only
      by_cases hpt : p.tag = t
      · rw [if_pos hpt, reconstructNew_cons, newOfTagged_cons, ← ih, reconstructNew_cons]
        by_cases ht : t = DTag.removed <;> simp [ht, hpt]
      · rw [if_neg hpt, reconstructNew_cons, newOfTagged_cons, ← ih]
        by_cases ht : t = DTag.removed <;> simp [ht]

/-- Claim C4: the line diff used by `compareFiles` partitions its inputs:
keeping only the Unchanged and Removed blocks reconstructs the baseline
text exactly, and keeping only the Unchanged and Added blocks reconstructs
the local text exactly. -/
theorem claim_C4_diff_roundtrip (A B : List String) :
    reconstructOld (diffLines A B) = A ∧ reconstructNew (diffLines A B) = B := by
  unfold diffLines
  rw [reconstructOld_groupParts, reconstructNew_groupParts]
  exact ⟨diffTagged_old _ A B, diffTagged_new _ A B⟩

/-- Claim C3, counterexample: diffing an empty baseline against the local
text with lines `x`, blank, `y` consumes three physical lines from a single
Added block, but the running counter ends at 2 and the two records get line
numbers 0 and 1 — the blank line inside the Added block did not advance the
counter, contradicting the claim that it increments once per physical line. -/
theorem claim_C3_counterexample :
    (compareChanges [] ["x", "", "y"]).2 = 2 ∧
    physicalLines (diffLines [] ["x", "", "y"]) = 3 ∧
    (compareChanges [] ["x", "", "y"]).2 ≠ physicalLines (diffLines [] ["x", "", "y"]) ∧
    ((compareChanges [] ["x", "", "y"]).1).map (fun c => c.lineNumber) = [0, 1] := by
  decide

theorem addBlock_counter (ctype : String) : ∀ (blockLines : List String)
    (acc : List ChangeInfo × Nat), (addBlock ctype acc blockLines).2
      = acc.2 + (blockLines.filter (fun l => jsTrim l != "")).length := by
  intro blockLines
  induction blockLines with
  | nil => intro acc; simp [addBlock]
  | cons l ls ih =>
    intro acc
    unfold addBlock at ih ⊢
    rw [List.foldl_cons]
    by_cases h : (jsTrim l != "") = true
    · rw [if_pos h, ih]
      simp [List.filter_cons, h]
      omega
    · have hf : (jsTrim l != "") = false := by
        revert h; cases jsTrim l != "" <;> simp
      rw [if_neg h, ih]
      simp [List.filter_cons, hf]

theorem collectStep_counter (acc : List ChangeInfo × Nat) (part : DiffPart) :
    (collectStep acc part).2 = acc.2 + consumedCount part := by
  unfold collectStep consumedCount
  cases part.tag with
  | added => exact addBlock_counter "added" part.lines acc
  | removed => exact addBlock_counter "removed" part.lines acc
  | unchanged => rfl

theorem collect_counter : ∀ (diff : List DiffPart) (acc : List ChangeInfo × Nat),
    (diff.foldl collectStep acc).2 = acc.2 + (diff.map consumedCount).sum := by
  intro diff
  induction diff with
  | nil => intro acc; simp
  | cons p ps ih =>
    intro acc
    rw [List.foldl_cons, ih, collectStep_counter]
    simp [List.map_cons, List.sum_cons]
    omega

/-- Claim C3 as amended: the running line counter of `compareFiles`
increments once per physical line for Unchanged blocks, but for Added and
Removed blocks it increments only on lines whose trim is non-empty — blank
lines inside Added/Removed blocks do not advance it. -/
theorem claim_C3_amended (diff : List DiffPart) :
    (collectChanges diff).2 = (diff.map consumedCount).sum := by
  unfold collectChanges
  rw [collect_counter diff ([], 0)]
  simp

/-- Claim C1, counterexample: on the claimed input the engine keeps the
line of the import (because `a` occurs in `console.log(a);` and such a line
is dropped only when none of its imported names is used), so the output is not
`console.log(a);` and no RefactoringChange is recorded at all. -/
theorem claim_C1_counterexample :
    (applyRules "test.ts" ["import \x7b a, b \x7d from \x27m\x27;", "console.log(a);"]
        ["remove-unused-imports"]).1 ≠ ["console.log(a);"] ∧
    (applyRules "test.ts" ["import \x7b a, b \x7d from \x27m\x27;", "console.log(a);"]
        ["remove-unused-imports"]).2.1 = [] := by
  decide

/-- Claim C1 as amended: applying refactor with the single rule list
`["remove-unused-imports"]` to the content
`import \x7b a, b \x7d from \x27m\x27; \\n console.log(a);` leaves the
content unchanged and produces no RefactoringChange (and the file is not
rewritten), because `a` is referenced and an import line is removed only
when none of its imported names occurs elsewhere. -/
theorem claim_C1_amended :
    applyRules "test.ts" ["import \x7b a, b \x7d from \x27m\x27;", "console.log(a);"]
        ["remove-unused-imports"]
      = (["import \x7b a, b \x7d from \x27m\x27;", "console.log(a);"], [], false) ∧
    refactorFile "test.ts" ["import \x7b a, b \x7d from \x27m\x27;", "console.log(a);"]
        ["remove-unused-imports"] true
      = Except.ok (none, []) := by
  decide

theorem tenth_iff (d n : Nat) : (10 * d ≤ n) ↔ ((d : ℚ) ≤ (n : ℚ)/10) := by
  rw [le_div_iff₀ (by norm_num : (0:ℚ) < 10)]
  constructor
  · intro h
    have h2 : ((10 * d : ℕ) : ℚ) ≤ (n : ℚ) := Nat.cast_le.mpr h
    push_cast at h2
    linarith
  · intro h
    have h2 : ((10 * d : ℕ) : ℚ) ≤ (n : ℚ) := by push_cast; linarith
    exact_mod_cast h2

theorem verify_iff (orig modified : List String) (fp : String) :
    verifyLogicPreservation orig modified fp = true ↔ specGuardChecks fp orig modified := by
  unfold verifyLogicPreservation specGuardChecks countNonBlank
  by_cases hd : 10 * (((orig.filter (fun l => jsTrim l != "")).length : Int)
      - ((modified.filter (fun l => jsTrim l != "")).length : Int)).natAbs
      > (orig.filter (fun l => jsTrim l != "")).length
  · rw [if_pos hd]
    simp only [Bool.false_eq_true, false_iff]
    intro hcon
    have := (tenth_iff _ _).mpr hcon.1
    omega
  · rw [if_neg hd]
    have h10 := (tenth_iff (((orig.filter (fun l => jsTrim l != "")).length : Int)
      - ((modified.filter (fun l => jsTrim l != "")).length : Int)).natAbs
      ((orig.filter (fun l => jsTrim l != "")).length)).mp (by omega)
    by_cases he : extname fp = ".js" ∨ extname fp = ".ts"
    · have hb : (extname fp = ".js" || extname fp = ".ts") = true := by
        rcases he with h | h <;> simp [h]
      rw [if_pos hb]
      simp only [beq_iff_eq]
      constructor
      · intro hcc
        exact ⟨h10, fun _ => hcc⟩
      · intro hcc
        exact hcc.2 he
    · have hb : ¬ ((extname fp = ".js" || extname fp = ".ts") = true) := by
        simp only [Bool.or_eq_true, decide_eq_true_eq]
        exact he
      rw [if_neg hb]
      simp only [true_iff]
      exact ⟨h10, fun hcon => absurd hcon he⟩

/-- Claim C5: when preserveLogic is requested and at least one rule changed
the content, the rewritten content is persisted if and only if both guard
checks pass (non-blank line count within 10% of the original's, and for
`.js`/`.ts` files balanced brace counts); when either check fails the call
errors and the rewrite is not persisted. -/
theorem claim_C5_guard (filePath : String) (content : List String) (rules : List String)
    (hchanged : (applyRules filePath content rules).2.2 = true) :
    (refactorFile filePath content rules true
        = Except.ok (some (applyRules filePath content rules).1,
            (applyRules filePath content rules).2.1)
      ↔ specGuardChecks filePath content (applyRules filePath content rules).1) ∧
    (¬ specGuardChecks filePath content (applyRules filePath content rules).1 →
      refactorFile filePath content rules true
        = Except.error ("Logic verification failed for " ++ filePath ++ ". Refactoring aborted.")) := by
  simp only [refactorFile, hchanged, Bool.and_self, if_true]
  by_cases hv : verifyLogicPreservation content (applyRules filePath content rules).1 filePath = true
  · rw [if_pos hv]
    constructor
    · constructor
      · intro _
        exact (verify_iff content (applyRules filePath content rules).1 filePath).mp hv
      · intro _
        rfl
    · intro hcon
      exact absurd ((verify_iff content (applyRules filePath content rules).1 filePath).mp hv) hcon
  · rw [if_neg hv]
    constructor
    · constructor
      · intro hcon
        exact absurd hcon (by simp)
      · intro hcheck
        exact absurd ((verify_iff content (applyRules filePath content rules).1 filePath).mpr hcheck) hv
    · intro _
      rfl

/-- Witness for claim C5 at a concrete input: with the single rule
organize-imports on content `x` (file `a.ts`), the rule changes the content
(a blank line is prepended), both guard checks pass, and the rewrite is
persisted. -/
theorem claim_C5_guard_witness :
    (applyRules "a.ts" ["x"] ["organize-imports"]).2.2 = true ∧
    ((refactorFile "a.ts" ["x"] ["organize-imports"] true
        = Except.ok (some (applyRules "a.ts" ["x"] ["organize-imports"]).1,
            (applyRules "a.ts" ["x"] ["organize-imports"]).2.1)
      ↔ specGuardChecks "a.ts" ["x"] (applyRules "a.ts" ["x"] ["organize-imports"]).1) ∧
    (¬ specGuardChecks "a.ts" ["x"] (applyRules "a.ts" ["x"] ["organize-imports"]).1 →
      refactorFile "a.ts" ["x"] ["organize-imports"] true
        = Except.error ("Logic verification failed for " ++ "a.ts" ++ ". Refactoring aborted."))) :=
  ⟨by decide, claim_C5_guard "a.ts" ["x"] ["organize-imports"] (by decide)⟩

/-- Claim C9: on content with no import line (a single non-blank code line),
organizeImports returns `changed = false` while prepending a blank line to
the content; consequently a refactor whose only content-altering rule is
organize-imports rewrites the file on disk while the result records no
RefactoringChange and omits the file from its files list. -/
theorem claim_C9_silent_rewrite :
    organizeImports ["x"] = (["", "x"], false) ∧
    (["", "x"] : List String) ≠ ["x"] ∧
    refactorFiles ["organize-imports"] true [("a.ts", ["x"])] ["a.ts"] [] []
      = Except.ok ([("a.ts", ["", "x"])], [], []) := by
  decide

/-- Claim C10: the per-file loop of a directory refactor is sequential and
non-atomic: once the first file has been processed (and its rewrite
persisted into the filesystem state `fsys1`), a guard failure on the second
file makes the whole call fail — but the error outcome still carries
`fsys1`, i.e. the first file's rewrite stays on disk; no rollback happens. -/
theorem claim_C10_no_rollback (fsys fsys1 : FileSys) (f1 f2 : String)
    (rules : List String) (e : String) (cs1 : List RefactoringChange)
    (h1 : refactorFileFS fsys f1 rules true = Except.ok (fsys1, cs1))
    (h2 : refactorFileFS fsys1 f2 rules true = Except.error e) :
    refactorFiles rules true fsys [f1, f2] [] [] = Except.error (e, fsys1) := by
  unfold refactorFiles
  rw [h1]
  dsimp only
  unfold refactorFiles
  rw [h2]

/-- Witness for claim C10 at a concrete two-file filesystem: file `a.ts`
(ten non-blank lines, one unused import) passes the guard and is rewritten;
file `b.ts` (a single unused import line) then fails the 10% guard check;
the whole call errors while the error state still holds the rewritten
`a.ts`. -/
theorem claim_C10_no_rollback_witness :
    refactorFileFS
        [("a.ts", ["import \x7b z \x7d from \x27m\x27;", "a1;", "a2;", "a3;", "a4;",
          "a5;", "a6;", "a7;", "a8;", "a9;"]), ("b.ts", ["import \x7b q \x7d from \x27n\x27;"])]
        "a.ts" ["remove-unused-imports"] true
      = Except.ok ([("a.ts", ["a1;", "a2;", "a3;", "a4;", "a5;", "a6;", "a7;", "a8;", "a9;"]),
          ("b.ts", ["import \x7b q \x7d from \x27n\x27;"])],
          [⟨"a.ts", "import", "Removed unused imports", [1]⟩]) ∧
    refactorFileFS
        [("a.ts", ["a1;", "a2;", "a3;", "a4;", "a5;", "a6;", "a7;", "a8;", "a9;"]),
          ("b.ts", ["import \x7b q \x7d from \x27n\x27;"])]
        "b.ts" ["remove-unused-imports"] true
      = Except.error ("Logic verification failed for b.ts. Refactoring aborted.") ∧
    refactorFiles ["remove-unused-imports"] true
        [("a.ts", ["import \x7b z \x7d from \x27m\x27;", "a1;", "a2;", "a3;", "a4;",
          "a5;", "a6;", "a7;", "a8;", "a9;"]), ("b.ts", ["import \x7b q \x7d from \x27n\x27;"])]
        ["a.ts", "b.ts"] [] []
      = Except.error ("Logic verification failed for b.ts. Refactoring aborted.",
          [("a.ts", ["a1;", "a2;", "a3;", "a4;", "a5;", "a6;", "a7;", "a8;", "a9;"]),
            ("b.ts", ["import \x7b q \x7d from \x27n\x27;"])]) ∧
    fsRead [("a.ts", ["a1;", "a2;", "a3;", "a4;", "a5;", "a6;", "a7;", "a8;", "a9;"]),
        ("b.ts", ["import \x7b q \x7d from \x27n\x27;"])] "a.ts"
      = some ["a1;", "a2;", "a3;", "a4;", "a5;", "a6;", "a7;", "a8;", "a9;"] := by
  have h1 : refactorFileFS
      [("a.ts", ["import \x7b z \x7d from \x27m\x27;", "a1;", "a2;", "a3;", "a4;",
        "a5;", "a6;", "a7;", "a8;", "a9;"]), ("b.ts", ["import \x7b q \x7d from \x27n\x27;"])]
      "a.ts" ["remove-unused-imports"] true
      = Except.ok ([("a.ts", ["a1;", "a2;", "a3;", "a4;", "a5;", "a6;", "a7;", "a8;", "a9;"]),
          ("b.ts", ["import \x7b q \x7d from \x27n\x27;"])],
          [⟨"a.ts", "import", "Removed unused imports", [1]⟩]) := by decide
  have h2 : refactorFileFS
      [("a.ts", ["a1;", "a2;", "a3;", "a4;", "a5;", "a6;", "a7;", "a8;", "a9;"]),
        ("b.ts", ["import \x7b q \x7d from \x27n\x27;"])]
      "b.ts" ["remove-unused-imports"] true
      = Except.error ("Logic verification failed for b.ts. Refactoring aborted.") := by decide
  exact ⟨h1, h2,
    claim_C10_no_rollback _ _ "a.ts" "b.ts" ["remove-unused-imports"] _ _ h1 h2,
    by decide⟩

theorem splitImportsGo_imports (ls : List String) : ∀ (sec : Bool),
    ∀ l ∈ (splitImportsGo ls sec).1, isImportLine l = true := by
  induction ls with
  | nil => intro sec l hl; simp [splitImportsGo] at hl
  | cons x xs ih =>
    intro sec l hl
    unfold splitImportsGo at hl
    by_cases hi : isImportLine x = true
    · rw [if_pos hi] at hl
      dsimp only at hl
      rcases List.mem_cons.1 hl with h | h
      · subst h; exact hi
      · exact ih sec l h
    · rw [if_neg hi] at hl
      by_cases hb : (jsTrim x == "" && sec) = true
      · rw [if_pos hb] at hl
        exact ih sec l hl
      · rw [if_neg hb] at hl
        dsimp only at hl
        exact ih false l hl

theorem splitImportsGo_others (ls : List String) : ∀ (sec : Bool),
    ∀ l ∈ (splitImportsGo ls sec).2, isImportLine l = false := by
  induction ls with
  | nil => intro sec l hl; simp [splitImportsGo] at hl
  | cons x xs ih =>
    intro sec l hl
    unfold splitImportsGo at hl
    by_cases hi : isImportLine x = true
    · rw [if_pos hi] at hl
      dsimp only at hl
      exact ih sec l hl
    · rw [if_neg hi] at hl
      by_cases hb : (jsTrim x == "" && sec) = true
      · rw [if_pos hb] at hl
        exact ih sec l hl
      · rw [if_neg hb] at hl
        dsimp only at hl
        rcases List.mem_cons.1 hl with h | h
        · subst h
          exact Bool.not_eq_true _ |>.mp hi
        · exact ih false l h

theorem splitImportsGo_head (ls : List String) :
    ∀ h ∈ (splitImportsGo ls true).2.head?, (jsTrim h == "") = false := by
  induction ls with
  | nil => intro h hh; simp [splitImportsGo] at hh
  | cons x xs ih =>
    intro h hh
    unfold splitImportsGo at hh
    by_cases hi : isImportLine x = true
    · rw [if_pos hi] at hh
      exact ih h hh
    · rw [if_neg hi] at hh
      by_cases hb : (jsTrim x == "" && true) = true
      · rw [if_pos hb] at hh
        exact ih h hh
      · rw [if_neg hb] at hh
        dsimp only at hh
        simp only [List.head?_cons, Option.mem_def, Option.some.injEq] at hh
        subst hh
        simpa using hb

theorem splitImportsGo_allOthers (ls : List String)
    (h : ∀ l ∈ ls, isImportLine l = false) :
    splitImportsGo ls false = ([], ls) := by
  induction ls with
  | nil => rfl
  | cons x xs ih =>
    have hx : isImportLine x = false := h x (List.mem_cons_self x xs)
    unfold splitImportsGo
    rw [if_neg (by simp [hx]), if_neg (by simp)]
    rw [ih (fun l hl => h l (List.mem_cons_of_mem x hl))]

theorem splitImportsGo_importsPrefix (imp : List String) (rest : List String) (sec : Bool)
    (h : ∀ l ∈ imp, isImportLine l = true) :
    splitImportsGo (imp ++ rest) sec
      = (imp ++ (splitImportsGo rest sec).1, (splitImportsGo rest sec).2) := by
  induction imp with
  | nil => simp
  | cons x xs ih =>
    have hx : isImportLine x = true := h x (List.mem_cons_self x xs)
    rw [List.cons_append]
    unfold splitImportsGo
    rw [if_pos hx, ih (fun l hl => h l (List.mem_cons_of_mem x hl)),
      ← splitImportsGo.eq_def]
    rfl

theorem splitImportsGo_blank_cons (rest : List String) :
    splitImportsGo ("" :: rest) true = splitImportsGo rest true := by
  unfold splitImportsGo
  rw [if_neg (by decide), if_pos (by decide), ← splitImportsGo.eq_def]

theorem sortLines_sorted (ls : List String) :
    List.Sorted (fun a b : String => a ≤ b) (sortLines ls) :=
  List.sorted_insertionSort _ ls

theorem sortLines_idem (ls : List String) : sortLines (sortLines ls) = sortLines ls :=
  List.Sorted.insertionSort_eq (sortLines_sorted ls)

theorem mem_sortLines (l : String) (ls : List String) : l ∈ sortLines ls ↔ l ∈ ls :=
  (List.perm_insertionSort _ ls).mem_iff

theorem splitImportsGo_of_output (lines : List String) :
    splitImportsGo ((sortLines (splitImportsGo lines true).1) ++ [""]
        ++ (splitImportsGo lines true).2) true
      = (sortLines (splitImportsGo lines true).1, (splitImportsGo lines true).2) := by
  have himp : ∀ l ∈ sortLines (splitImportsGo lines true).1, isImportLine l = true :=
    fun l hl => splitImportsGo_imports lines true l ((mem_sortLines l _).mp hl)
  rw [List.append_assoc, splitImportsGo_importsPrefix _ _ _ himp,
    show ([""] ++ (splitImportsGo lines true).2) = ("" :: (splitImportsGo lines true).2)
      from rfl,
    splitImportsGo_blank_cons]
  cases ho : (splitImportsGo lines true).2 with
  | nil => simp [splitImportsGo]
  | cons h t =>
    have hh : (jsTrim h == "") = false := by
      have hx := splitImportsGo_head lines
      rw [ho] at hx
      exact hx h (by simp)
    have hhi : isImportLine h = false := by
      have hx := splitImportsGo_others lines true
      rw [ho] at hx
      exact hx h (by simp)
    have htl : ∀ l ∈ t, isImportLine l = false := by
      have hx := splitImportsGo_others lines true
      rw [ho] at hx
      exact fun l hl => hx l (List.mem_cons_of_mem h hl)
    have hsplit : splitImportsGo (h :: t) true = ([], h :: t) := by
      unfold splitImportsGo
      rw [if_neg (by simp [hhi]), if_neg (by simp [hh]), splitImportsGo_allOthers t htl]
    rw [hsplit]
    simp

/-- Claim C8: the organize-imports rule is idempotent — applying
`organizeImports` to its own output yields exactly that output. -/
theorem claim_C8_organize_idempotent (content : List String) :
    (organizeImports (organizeImports content).1).1 = (organizeImports content).1 := by
  simp only [organizeImports]
  rw [splitImportsGo_of_output content, sortLines_idem]
